import Mathlib

/-!
Shallow embedding of the connectome loader in `src/main.rs` of
zircat-dev/flymind.

The program builds an in-memory directed multigraph (`Network`) from a
four-column edge list: it interns neuron names to dense numeric ids
(`neuron_map` in `main`), classifies the synapse-code column
(the `match` on `synapse_str`), parses the weight column with a silent
`1.0` fallback (`nbr_str.parse::<f64>().unwrap_or(1.0)`), and keeps a
derived outgoing-adjacency index (`outgoing_map`).

Modelling choices:
* `usize` ids become `Nat`; `f64` weights become `ℚ` built with `mkRat`
  (every numeric literal the claims exercise is an exact decimal, so the
  rational value coincides with the `f64` value).
* Rust's `HashMap` is modelled as an association list in key-insertion
  order: the program only ever uses point lookups (`get`, `entry`) and
  never iterates a map, so lookup behaviour is the whole contract.
* The csv iteration `for result in rdr.records() { let record = result?; … }`
  becomes a fold over `List (Except String Row)`: each element is either a
  well-formed four-field row or the reader's error for that row.
-/

namespace Flymind

/-- `NeuronType` from `src/main.rs`. -/
inductive NeuronType
  | Sensory
  | Interneuron
  | Motor
  | Other
deriving DecidableEq, Repr

/-- `ChemicalSubtype` from `src/main.rs`. -/
inductive ChemicalSubtype
  | Excitatory
  | Inhibitory
deriving DecidableEq, Repr

/-- `SynapseType` from `src/main.rs`. -/
inductive SynapseType
  | ChemicalSend (sub : ChemicalSubtype)
  | ChemicalReceive (sub : ChemicalSubtype)
  | GapJunction
  | NMJ
deriving DecidableEq, Repr

/-- `Region` from `src/main.rs`. -/
inductive Region
  | Head
  | MidBody
  | Tail
  | Unknown
deriving DecidableEq, Repr

/-- `Neuron` from `src/main.rs` (all fields, including the unused
simulation placeholders `membrane_potential` and `just_fired`). -/
structure Neuron where
  id : Nat
  name : String
  neuron_type : NeuronType
  region : Region
  soma_position : ℚ
  membrane_potential : ℚ
  just_fired : Bool
deriving DecidableEq, Repr

/-- `Neuron::new` from `src/main.rs`. -/
def Neuron.new (id : Nat) (name : String) (neuron_type : NeuronType)
    (region : Region) (soma_pos : ℚ) : Neuron :=
  { id := id, name := name, neuron_type := neuron_type, region := region,
    soma_position := soma_pos, membrane_potential := 0, just_fired := false }

/-- `Connection` from `src/main.rs`. -/
structure Connection where
  from_id : Nat
  to_id : Nat
  synapse_type : SynapseType
  weight : ℚ
deriving DecidableEq, Repr

/-- `Connection::new` from `src/main.rs`. -/
def Connection.new (from_id : Nat) (to_id : Nat) (synapse_type : SynapseType)
    (weight : ℚ) : Connection :=
  { from_id := from_id, to_id := to_id, synapse_type := synapse_type,
    weight := weight }

/-- `Network` from `src/main.rs`; `outgoing_map : HashMap<usize, Vec<usize>>`
is modelled as an association list in key-insertion order. -/
structure Network where
  neurons : List Neuron
  connections : List Connection
  outgoing_map : List (Nat × List Nat)
deriving DecidableEq, Repr

/-- Point lookup in the association list modelling the `HashMap`
(`HashMap::get`). -/
def mapFind (m : List (Nat × List Nat)) (k : Nat) : Option (List Nat) :=
  match m with
  | [] => none
  | (k₀, l) :: rest => if k₀ = k then some l else mapFind rest k

/-- `map.entry(k).or_default().push(v)` from `Network::add_connection`:
append `v` to the bucket of `k`, creating the bucket if absent. -/
def mapPush (m : List (Nat × List Nat)) (k : Nat) (v : Nat) :
    List (Nat × List Nat) :=
  match m with
  | [] => [(k, [v])]
  | (k₀, l) :: rest =>
      if k₀ = k then (k₀, l ++ [v]) :: rest else (k₀, l) :: mapPush rest k v

/-- `Network::new` from `src/main.rs`. -/
def Network.new : Network :=
  { neurons := [], connections := [], outgoing_map := [] }

/-- `Network::add_neuron` from `src/main.rs`: appends a neuron whose id is
the current vertex count, returning the id alongside the new network. -/
def Network.add_neuron (net : Network) (name : String)
    (neuron_type : NeuronType) (region : Region) (soma_position : ℚ) :
    Network × Nat :=
  let id := net.neurons.length
  ({ net with
      neurons := net.neurons
        ++ [Neuron.new id name neuron_type region soma_position] },
    id)

/-- `Network::add_connection` from `src/main.rs`: appends the connection and
pushes its index (`conn_index = connections.len()` before the push) onto the
outgoing bucket of `from_id`. No validation of either id is performed. -/
def Network.add_connection (net : Network) (from_id : Nat) (to_id : Nat)
    (synapse_type : SynapseType) (weight : ℚ) : Network :=
  let conn_index := net.connections.length
  { net with
      connections := net.connections
        ++ [Connection.new from_id to_id synapse_type weight],
      outgoing_map := mapPush net.outgoing_map from_id conn_index }

/-- One four-field record of the csv reader:
`[Neuron 1, Neuron 2, Type, Nbr]`. -/
structure Row where
  neuron1 : String
  neuron2 : String
  syn : String
  nbr : String
deriving DecidableEq, Repr

/-- The `match synapse_str` in `main` (lines 188–194): a total classifier
with `ChemicalSend(Excitatory)` as the catch-all arm. -/
def classify (code : String) : SynapseType :=
  if code = "EJ" then SynapseType.GapJunction
  else if code = "Sp" then SynapseType.ChemicalSend ChemicalSubtype.Excitatory
  else if code = "R" then SynapseType.ChemicalReceive ChemicalSubtype.Excitatory
  else SynapseType.ChemicalSend ChemicalSubtype.Excitatory

/-- Signed integer from a sign flag and a magnitude. -/
def intSign (neg : Bool) (n : Nat) : Int :=
  if neg then -(n : Int) else (n : Int)

/-- Value of a digit string, most significant digit first. -/
def digitsVal (cs : List Char) : Nat :=
  cs.foldl (fun n c => n * 10 + (c.toNat - 48)) 0

/-- Models `nbr_str.parse::<f64>()` (line 163) on plain decimal strings, as
an exact rational: an optional sign, then digits with at most one decimal
point and at least one digit in total. Strings outside this grammar (such
as `"x"`, `"abc"` or `""`) fail to parse, exactly as they do for `f64`;
exponent and infinity forms, which the data never uses, are out of scope. -/
def parseWeight (s : String) : Option ℚ :=
  let signed : Bool × List Char :=
    match s.toList with
    | '-' :: rest => (true, rest)
    | '+' :: rest => (false, rest)
    | cs => (false, cs)
  let ip := signed.2.takeWhile Char.isDigit
  let rest := signed.2.dropWhile Char.isDigit
  match rest with
  | [] =>
      if ip.isEmpty then none
      else some (mkRat (intSign signed.1 (digitsVal ip)) 1)
  | '.' :: fp =>
      if fp.all Char.isDigit && !(ip.isEmpty && fp.isEmpty) then
        some (mkRat
          (intSign signed.1 (digitsVal ip * 10 ^ fp.length + digitsVal fp))
          (10 ^ fp.length))
      else none
  | _ => none

/-- The mutable state of `main`'s loading loop: the network under
construction and the `neuron_map : HashMap<String, usize>` interning
neuron names (modelled as an association list in insertion order). -/
structure LoaderState where
  network : Network
  neuron_map : List (String × Nat)
deriving DecidableEq, Repr

/-- `neuron_map.get(name)` on the modelled `HashMap`. -/
def findName (m : List (String × Nat)) (name : String) : Option Nat :=
  match m with
  | [] => none
  | (n₀, i) :: rest => if n₀ = name then some i else findName rest name

/-- The endpoint-resolution blocks of `main` (lines 165–184): a name already
in `neuron_map` resolves to its stored id with no state change; otherwise
`new_id = network.neurons.len()` is registered for the name and a fresh
default neuron is appended. -/
def resolve (s : LoaderState) (name : String) : Nat × LoaderState :=
  match findName s.neuron_map name with
  | some id => (id, s)
  | none =>
      let new_id := s.network.neurons.length
      (new_id,
        { network :=
            (s.network.add_neuron name NeuronType.Other Region.Unknown 0).1,
          neuron_map := (name, new_id) :: s.neuron_map })

/-- The body of `main`'s record loop (lines 156–197) for one well-formed
row: parse the weight with the `1.0` fallback, resolve source then target,
classify the synapse code, insert the connection. -/
def processRow (s : LoaderState) (r : Row) : LoaderState :=
  let weight := (parseWeight r.nbr).getD 1
  let res1 := resolve s r.neuron1
  let res2 := resolve res1.2 r.neuron2
  let syn_type := classify r.syn
  { res2.2 with
      network := res2.2.network.add_connection res1.1 res2.1 syn_type weight }

/-- Folding `processRow` over a list of well-formed rows. -/
def processRows (s : LoaderState) (rows : List Row) : LoaderState :=
  rows.foldl processRow s

/-- The initial state of `main`: empty network, empty name map. -/
def initState : LoaderState :=
  { network := Network.new, neuron_map := [] }

/-- The record loop of `main` (lines 153–198) over a fallible row source:
`let record = result?` aborts the whole load at the first reader error. -/
def loadAux (s : LoaderState) : List (Except String Row) →
    Except String LoaderState
  | [] => Except.ok s
  | Except.error e :: _ => Except.error e
  | Except.ok r :: rest => loadAux (processRow s r) rest

/-- The whole load: run the record loop from the empty state and return the
built network. -/
def load (rows : List (Except String Row)) : Except String Network :=
  (loadAux initState rows).map LoaderState.network

/-- Edge ids with source `v` among `conns`, counting indices from `i`
(specification device: the insertion-ordered list of edge indices whose
connection has `from_id = v`). -/
def sourceEdgeIdsFrom (v : Nat) (i : Nat) : List Connection → List Nat
  | [] => []
  | c :: rest =>
      if c.from_id = v then i :: sourceEdgeIdsFrom v (i + 1) rest
      else sourceEdgeIdsFrom v (i + 1) rest

/-- The insertion-ordered list of edge ids of `net` whose source is `v`. -/
def outgoingOf (net : Network) (v : Nat) : List Nat :=
  sourceEdgeIdsFrom v 0 net.connections

/-- A single graph-store mutation: `Network::add_neuron` or
`Network::add_connection`, with its arguments. -/
inductive Op
  | neuron (name : String) (neuron_type : NeuronType) (region : Region)
      (soma_position : ℚ)
  | conn (from_id : Nat) (to_id : Nat) (synapse_type : SynapseType)
      (weight : ℚ)

/-- Apply one mutation to the network. -/
def applyOp (net : Network) : Op → Network
  | Op.neuron n t r p => (net.add_neuron n t r p).1
  | Op.conn f t s w => net.add_connection f t s w

/-- Apply a sequence of mutations starting from `net`. -/
def applyOpsOn (net : Network) (ops : List Op) : Network :=
  ops.foldl applyOp net

/-- Apply a sequence of mutations starting from the empty network. -/
def applyOps (ops : List Op) : Network :=
  applyOpsOn Network.new ops

/-- The ids `Network::add_neuron` hands out along a run, in creation
order. -/
def neuronIdTrace (net : Network) : List Op → List Nat
  | [] => []
  | Op.neuron n t r p :: rest =>
      let res := net.add_neuron n t r p
      res.2 :: neuronIdTrace res.1 rest
  | Op.conn f t s w :: rest =>
      neuronIdTrace (net.add_connection f t s w) rest

/-- The `conn_index` values `Network::add_connection` assigns along a run,
in insertion order. -/
def connIdTrace (net : Network) : List Op → List Nat
  | [] => []
  | Op.neuron n t r p :: rest => connIdTrace (net.add_neuron n t r p).1 rest
  | Op.conn f t s w :: rest =>
      net.connections.length :: connIdTrace (net.add_connection f t s w) rest

/-- Number of `add_neuron` calls in a mutation sequence. -/
def countNeuronOps : List Op → Nat
  | [] => 0
  | Op.neuron _ _ _ _ :: rest => countNeuronOps rest + 1
  | Op.conn _ _ _ _ :: rest => countNeuronOps rest

/-- Number of `add_connection` calls in a mutation sequence. -/
def countConnOps : List Op → Nat
  | [] => 0
  | Op.neuron _ _ _ _ :: rest => countConnOps rest
  | Op.conn _ _ _ _ :: rest => countConnOps rest + 1

/-- The outgoing-index consistency invariant: looking a vertex up in
`outgoing_map` yields exactly the insertion-ordered list of its outgoing
edge ids (with no entry at all when that list is empty), and bucket keys
are pairwise distinct. -/
def outIndexOk (net : Network) : Prop :=
  (∀ v, mapFind net.outgoing_map v =
      if outgoingOf net v = [] then none else some (outgoingOf net v))
  ∧ (net.outgoing_map.map Prod.fst).Nodup

/-- The spec's end-to-end scenario: three well-formed rows, the third with
an unparsable weight field. -/
def rowsScenario : List (Except String Row) :=
  [Except.ok { neuron1 := "N1", neuron2 := "N2", syn := "EJ", nbr := "2.0" },
   Except.ok { neuron1 := "N2", neuron2 := "N1", syn := "R", nbr := "1.5" },
   Except.ok { neuron1 := "N1", neuron2 := "N3", syn := "Sp", nbr := "x" }]

theorem mapFind_mapPush (m : List (Nat × List Nat)) (k v k' : Nat) :
    mapFind (mapPush m k v) k' =
      if k' = k then some ((mapFind m k).getD [] ++ [v]) else mapFind m k' := by
  induction m with
  | nil =>
      by_cases h : k' = k <;> simp [mapPush, mapFind, h, Ne.symm]
  | cons p rest ih =>
      obtain ⟨k₀, l⟩ := p
      by_cases h₀ : k₀ = k
      · subst h₀
        by_cases h : k' = k₀
        · subst h
          simp [mapPush, mapFind]
        · simp [mapPush, mapFind, h, Ne.symm h]
      · by_cases h : k₀ = k'
        · subst h
          simp [mapPush, mapFind, h₀, Ne.symm h₀]
        · simp [mapPush, mapFind, h₀, h, ih]

theorem mapFind_eq_none (m : List (Nat × List Nat)) (k : Nat) :
    mapFind m k = none ↔ k ∉ m.map Prod.fst := by
  induction m with
  | nil => simp [mapFind]
  | cons p rest ih =>
      obtain ⟨k₀, l⟩ := p
      by_cases h : k₀ = k
      · simp [mapFind, h]
      · simp [mapFind, h, Ne.symm h, ih]

theorem mapPush_keys (m : List (Nat × List Nat)) (k v : Nat) :
    (mapPush m k v).map Prod.fst =
      if mapFind m k = none then m.map Prod.fst ++ [k] else m.map Prod.fst := by
  induction m with
  | nil => simp [mapPush, mapFind]
  | cons p rest ih =>
      obtain ⟨k₀, l⟩ := p
      by_cases h : k₀ = k
      · simp [mapPush, mapFind, h]
      · simp only [mapPush, mapFind, if_neg h, List.map_cons, ih]
        by_cases h' : mapFind rest k = none <;> simp [h']

theorem mapPush_keys_nodup (m : List (Nat × List Nat)) (k v : Nat)
    (h : (m.map Prod.fst).Nodup) : ((mapPush m k v).map Prod.fst).Nodup := by
  rw [mapPush_keys]
  by_cases h' : mapFind m k = none
  · rw [if_pos h']
    have hk : k ∉ m.map Prod.fst := (mapFind_eq_none m k).mp h'
    simp [List.nodup_append, h, hk]
  · rw [if_neg h']
    exact h

theorem mapFind_of_mem (m : List (Nat × List Nat)) (k : Nat) (l : List Nat)
    (hnd : (m.map Prod.fst).Nodup) (hmem : (k, l) ∈ m) :
    mapFind m k = some l := by
  induction m with
  | nil => simp at hmem
  | cons p rest ih =>
      obtain ⟨k₀, l₀⟩ := p
      simp only [List.map_cons, List.nodup_cons] at hnd
      rcases List.mem_cons.mp hmem with h | h
      · injection h with h1 h2
        simp [mapFind, h1, h2]
      · have hk : k₀ ≠ k := by
          intro hkk
          exact hnd.1 (hkk ▸ (List.mem_map.mpr ⟨(k, l), h, rfl⟩))
        simp [mapFind, hk, ih hnd.2 h]

theorem sourceEdgeIdsFrom_append (v i : Nat) (l : List Connection)
    (c : Connection) :
    sourceEdgeIdsFrom v i (l ++ [c]) =
      sourceEdgeIdsFrom v i l ++
        (if c.from_id = v then [i + l.length] else []) := by
  induction l generalizing i with
  | nil => by_cases h : c.from_id = v <;> simp [sourceEdgeIdsFrom, h]
  | cons c₀ rest ih =>
      by_cases h : c₀.from_id = v <;>
        simp [sourceEdgeIdsFrom, h, ih, Nat.add_assoc, Nat.add_comm 1]

theorem sourceEdgeIdsFrom_eq_nil (v i : Nat) (l : List Connection) :
    sourceEdgeIdsFrom v i l = [] ↔ ∀ c ∈ l, c.from_id ≠ v := by
  induction l generalizing i with
  | nil => simp [sourceEdgeIdsFrom]
  | cons c₀ rest ih =>
      by_cases h : c₀.from_id = v <;> simp [sourceEdgeIdsFrom, h, ih]

theorem outIndexOk_new : outIndexOk Network.new := by
  constructor
  · intro v
    simp [Network.new, mapFind, outgoingOf, sourceEdgeIdsFrom]
  · simp [Network.new]

theorem outgoingOf_add_neuron (net : Network) (n : String) (t : NeuronType)
    (r : Region) (p : ℚ) (v : Nat) :
    outgoingOf (net.add_neuron n t r p).1 v = outgoingOf net v := by
  simp [outgoingOf, Network.add_neuron]

theorem outgoingOf_add_connection (net : Network) (f t : Nat)
    (s : SynapseType) (w : ℚ) (v : Nat) :
    outgoingOf (net.add_connection f t s w) v =
      outgoingOf net v ++
        (if f = v then [net.connections.length] else []) := by
  simp [outgoingOf, Network.add_connection, sourceEdgeIdsFrom_append,
    Connection.new]

theorem outIndexOk_add_neuron (net : Network) (n : String) (t : NeuronType)
    (r : Region) (p : ℚ) (h : outIndexOk net) :
    outIndexOk (net.add_neuron n t r p).1 := by
  obtain ⟨h₁, h₂⟩ := h
  constructor
  · intro v
    rw [outgoingOf_add_neuron]
    simpa [Network.add_neuron] using h₁ v
  · simpa [Network.add_neuron] using h₂

theorem outIndexOk_add_connection (net : Network) (f t : Nat)
    (s : SynapseType) (w : ℚ) (h : outIndexOk net) :
    outIndexOk (net.add_connection f t s w) := by
  obtain ⟨h₁, h₂⟩ := h
  constructor
  · intro v
    have hmap :
        mapFind (net.add_connection f t s w).outgoing_map v =
          if v = f then some ((mapFind net.outgoing_map f).getD [] ++
            [net.connections.length])
          else mapFind net.outgoing_map v := by
      simp [Network.add_connection, mapFind_mapPush]
    rw [hmap, outgoingOf_add_connection]
    by_cases hv : v = f
    · subst hv
      rw [if_pos rfl, h₁ v]
      by_cases he : outgoingOf net v = [] <;> simp [he]
    · have hfv : ¬f = v := fun e => hv e.symm
      rw [if_neg hv, h₁ v]
      simp [hfv]
  · exact mapPush_keys_nodup _ _ _ h₂

theorem outIndexOk_applyOpsOn (net : Network) (ops : List Op)
    (h : outIndexOk net) : outIndexOk (applyOpsOn net ops) := by
  induction ops generalizing net with
  | nil => exact h
  | cons op rest ih =>
      cases op with
      | neuron n t r p =>
          exact ih _ (outIndexOk_add_neuron net n t r p h)
      | conn f t s w =>
          exact ih _ (outIndexOk_add_connection net f t s w h)

theorem outIndexOk_applyOps (ops : List Op) : outIndexOk (applyOps ops) :=
  outIndexOk_applyOpsOn Network.new ops outIndexOk_new

theorem applyOpsOn_neurons_length (net : Network) (ops : List Op) :
    (applyOpsOn net ops).neurons.length
      = net.neurons.length + countNeuronOps ops := by
  induction ops generalizing net with
  | nil => simp [applyOpsOn, countNeuronOps]
  | cons op rest ih =>
      cases op with
      | neuron n t r p =>
          simp only [applyOpsOn, List.foldl_cons, applyOp] at ih ⊢
          rw [ih, countNeuronOps]
          simp [Network.add_neuron]
          omega
      | conn f t s w =>
          simp only [applyOpsOn, List.foldl_cons, applyOp] at ih ⊢
          rw [ih, countNeuronOps]
          simp [Network.add_connection]

theorem applyOpsOn_connections_length (net : Network) (ops : List Op) :
    (applyOpsOn net ops).connections.length
      = net.connections.length + countConnOps ops := by
  induction ops generalizing net with
  | nil => simp [applyOpsOn, countConnOps]
  | cons op rest ih =>
      cases op with
      | neuron n t r p =>
          simp only [applyOpsOn, List.foldl_cons, applyOp] at ih ⊢
          rw [ih, countConnOps]
          simp [Network.add_neuron]
      | conn f t s w =>
          simp only [applyOpsOn, List.foldl_cons, applyOp] at ih ⊢
          rw [ih, countConnOps]
          simp [Network.add_connection]
          omega

theorem neuronIdTrace_eq (net : Network) (ops : List Op) :
    neuronIdTrace net ops
      = List.range' net.neurons.length (countNeuronOps ops) := by
  induction ops generalizing net with
  | nil => simp [neuronIdTrace, countNeuronOps]
  | cons op rest ih =>
      cases op with
      | neuron n t r p =>
          rw [neuronIdTrace, countNeuronOps, List.range'_succ, ih]
          simp [Network.add_neuron]
      | conn f t s w =>
          rw [neuronIdTrace, countNeuronOps, ih]
          simp [Network.add_connection]

theorem connIdTrace_eq (net : Network) (ops : List Op) :
    connIdTrace net ops
      = List.range' net.connections.length (countConnOps ops) := by
  induction ops generalizing net with
  | nil => simp [connIdTrace, countConnOps]
  | cons op rest ih =>
      cases op with
      | neuron n t r p =>
          rw [connIdTrace, countConnOps, ih]
          simp [Network.add_neuron]
      | conn f t s w =>
          rw [connIdTrace, countConnOps, List.range'_succ, ih]
          simp [Network.add_connection]

theorem applyOpsOn_neurons_map_id (net : Network) (ops : List Op)
    (h : net.neurons.map Neuron.id = List.range net.neurons.length) :
    (applyOpsOn net ops).neurons.map Neuron.id
      = List.range (applyOpsOn net ops).neurons.length := by
  induction ops generalizing net with
  | nil => exact h
  | cons op rest ih =>
      cases op with
      | neuron n t r p =>
          refine ih _ ?_
          simp only [applyOp]
          have hlen : (net.add_neuron n t r p).1.neurons.length
              = net.neurons.length + 1 := by
            simp [Network.add_neuron]
          have hmap : (net.add_neuron n t r p).1.neurons.map Neuron.id
              = net.neurons.map Neuron.id ++ [net.neurons.length] := by
            simp [Network.add_neuron, Neuron.new]
          rw [hlen, hmap, h, List.range_succ]
      | conn f t s w =>
          refine ih _ ?_
          exact h

theorem findName_resolve (s : LoaderState) (n' n : String) (i : Nat)
    (h : findName s.neuron_map n = some i) :
    findName (resolve s n').2.neuron_map n = some i := by
  unfold resolve
  cases hf : findName s.neuron_map n' with
  | some id => simpa using h
  | none =>
      have hne : n' ≠ n := by
        intro e
        rw [e, h] at hf
        cases hf
      simp [findName, hne, h]

theorem findName_processRow (s : LoaderState) (r : Row) (n : String)
    (i : Nat) (h : findName s.neuron_map n = some i) :
    findName (processRow s r).neuron_map n = some i := by
  unfold processRow
  exact findName_resolve _ r.neuron2 n i (findName_resolve s r.neuron1 n i h)

theorem findName_processRows (s : LoaderState) (rows : List Row) (n : String)
    (i : Nat) (h : findName s.neuron_map n = some i) :
    findName (processRows s rows).neuron_map n = some i := by
  induction rows generalizing s with
  | nil => exact h
  | cons r rest ih =>
      exact ih (processRow s r) (findName_processRow s r n i h)

theorem resolve_connections (s : LoaderState) (n : String) :
    (resolve s n).2.network.connections = s.network.connections := by
  unfold resolve
  cases hf : findName s.neuron_map n <;> simp [Network.add_neuron]

theorem processRow_connections (s : LoaderState) (r : Row) :
    (processRow s r).network.connections
      = s.network.connections
        ++ [Connection.new (resolve s r.neuron1).1
              (resolve (resolve s r.neuron1).2 r.neuron2).1
              (classify r.syn) ((parseWeight r.nbr).getD 1)] := by
  unfold processRow
  simp [Network.add_connection, resolve_connections]

theorem loadAux_ok (s : LoaderState) (rows : List Row) :
    ∃ s', loadAux s (rows.map Except.ok) = Except.ok s'
      ∧ s'.network.connections.map Connection.weight
        = s.network.connections.map Connection.weight
          ++ rows.map (fun r => (parseWeight r.nbr).getD 1) := by
  induction rows generalizing s with
  | nil => exact ⟨s, rfl, by simp⟩
  | cons r rest ih =>
      obtain ⟨s', hok, hw⟩ := ih (processRow s r)
      refine ⟨s', hok, ?_⟩
      rw [hw, processRow_connections]
      simp [Connection.new]

/-- C1: end-to-end scenario — loading the rows `[("N1","N2","EJ","2.0"),
("N2","N1","R","1.5"), ("N1","N3","Sp","x")]` yields exactly the vertices
N1 = 0, N2 = 1, N3 = 2; exactly the edges 0→1 GapJunction 2.0,
1→0 ChemicalReceive(Excitatory) 1.5, 0→2 ChemicalSend(Excitatory) 1.0
(fallback for `"x"`), in insertion order; and the outgoing index maps
0 to [0, 2] and 1 to [1] (with no other entry). -/
theorem c1_end_to_end_scenario :
    (load rowsScenario).map
        (fun net => net.neurons.map fun nr => (nr.id, nr.name))
      = Except.ok [(0, "N1"), (1, "N2"), (2, "N3")]
    ∧ (load rowsScenario).map Network.connections
      = Except.ok
          [Connection.new 0 1 SynapseType.GapJunction 2,
           Connection.new 1 0
             (SynapseType.ChemicalReceive ChemicalSubtype.Excitatory)
             (mkRat 3 2),
           Connection.new 0 2
             (SynapseType.ChemicalSend ChemicalSubtype.Excitatory) 1]
    ∧ (load rowsScenario).map Network.outgoing_map
      = Except.ok [(0, [0, 2]), (1, [1])]
    ∧ (mkRat 3 2 : ℚ) = 1.5 := by
  refine ⟨rfl, rfl, rfl, ?_⟩
  rw [Rat.mkRat_eq_divInt, Rat.divInt_eq_div]
  norm_num

/-- C2: identity stability — a name that is already registered resolves to
its previously assigned id with no side effect at all (the whole loader
state, vertex sequence included, is unchanged), and it still resolves to
that same id after any further rows have been processed, however many new
names they introduce. -/
theorem c2_identity_stability (s : LoaderState) (name : String) (id : Nat)
    (h : findName s.neuron_map name = some id) :
    resolve s name = (id, s)
    ∧ ∀ rows : List Row,
        resolve (processRows s rows) name = (id, processRows s rows) := by
  constructor
  · simp [resolve, h]
  · intro rows
    simp [resolve, findName_processRows s rows name id h]

/-- Witness for C2 at a concrete state: with `"A"` registered as id 5,
resolving `"A"` returns 5 and leaves the state untouched. -/
theorem c2_witness :
    resolve { network := Network.new, neuron_map := [("A", 5)] } "A"
      = (5, { network := Network.new, neuron_map := [("A", 5)] }) :=
  (c2_identity_stability
    { network := Network.new, neuron_map := [("A", 5)] } "A" 5 rfl).1

/-- C3: classifier totality — `classify` maps "EJ" to GapJunction, "Sp" to
ChemicalSend(Excitatory), "R" to ChemicalReceive(Excitatory), and every
other string, the empty string included, to ChemicalSend(Excitatory). -/
theorem c3_classifier_total :
    classify "EJ" = SynapseType.GapJunction
    ∧ classify "Sp" = SynapseType.ChemicalSend ChemicalSubtype.Excitatory
    ∧ classify "R" = SynapseType.ChemicalReceive ChemicalSubtype.Excitatory
    ∧ classify "" = SynapseType.ChemicalSend ChemicalSubtype.Excitatory
    ∧ ∀ code : String, code ≠ "EJ" → code ≠ "Sp" → code ≠ "R" →
        classify code = SynapseType.ChemicalSend ChemicalSubtype.Excitatory := by
  refine ⟨rfl, rfl, rfl, rfl, ?_⟩
  intro code h1 h2 h3
  simp [classify, h1, h2, h3]

/-- C4: adjacency consistency — after any sequence of vertex and edge
insertions, the bucket of each vertex `v` is exactly the insertion-ordered
list of edge ids whose source is `v`, bucket keys are pairwise distinct
(so every edge id lives in exactly one bucket, the one keyed by its
source), and no bucket holds an edge id with a different source. -/
theorem c4_adjacency_consistency (ops : List Op) :
    (∀ v, (mapFind (applyOps ops).outgoing_map v).getD []
        = outgoingOf (applyOps ops) v)
    ∧ ((applyOps ops).outgoing_map.map Prod.fst).Nodup
    ∧ ∀ p ∈ (applyOps ops).outgoing_map,
        p.2 = outgoingOf (applyOps ops) p.1 := by
  obtain ⟨h₁, h₂⟩ := outIndexOk_applyOps ops
  refine ⟨fun v => ?_, h₂, ?_⟩
  · rw [h₁ v]
    by_cases he : outgoingOf (applyOps ops) v = [] <;> simp [he]
  · rintro ⟨pk, pl⟩ hp
    have hfind : mapFind (applyOps ops).outgoing_map pk = some pl :=
      mapFind_of_mem _ pk pl h₂ hp
    rw [h₁ pk] at hfind
    by_cases he : outgoingOf (applyOps ops) pk = []
    · rw [if_pos he] at hfind
      cases hfind
    · rw [if_neg he] at hfind
      injection hfind with hh
      exact hh.symm

/-- C5 counterexample: in the empty network (0 vertices) the ids 5 and 7
name no vertex, yet `add_connection 5 7` does not fail — it appends the
edge and creates the outgoing bucket, contradicting the claim that the
insertion fails with no edge appended and the index unchanged. -/
theorem c5_counterexample :
    Network.new.neurons.length = 0
    ∧ (Network.new.add_connection 5 7 SynapseType.GapJunction 1).connections
        = [Connection.new 5 7 SynapseType.GapJunction 1]
    ∧ (Network.new.add_connection 5 7 SynapseType.GapJunction 1).outgoing_map
        = [(5, [0])] :=
  ⟨rfl, rfl, rfl⟩

/-- C5 amended: `add_connection` performs no validation and never fails —
for every network and every pair of ids, existing or not, it appends the
edge, leaves the vertex list unchanged, and pushes the new edge id
(the pre-insertion edge count) onto the source's outgoing bucket. -/
theorem c5_amended_no_validation (net : Network) (from_id to_id : Nat)
    (synapse_type : SynapseType) (weight : ℚ) :
    (net.add_connection from_id to_id synapse_type weight).connections
      = net.connections ++ [Connection.new from_id to_id synapse_type weight]
    ∧ (net.add_connection from_id to_id synapse_type weight).neurons
      = net.neurons
    ∧ mapFind
        (net.add_connection from_id to_id synapse_type weight).outgoing_map
        from_id
      = some ((mapFind net.outgoing_map from_id).getD []
          ++ [net.connections.length]) := by
  refine ⟨rfl, rfl, ?_⟩
  show mapFind (mapPush net.outgoing_map from_id net.connections.length)
      from_id = _
  rw [mapFind_mapPush, if_pos rfl]

/-- C6: id density — after any sequence of insertions starting from the
empty network, the stored vertex ids read `0, 1, …, vertex_count - 1` in
creation order; the ids `add_neuron` hands out along the run are exactly
`[0, vertex_count)` in creation order; and the edge ids `add_connection`
assigns are exactly `[0, edge_count)` in insertion order. -/
theorem c6_id_density (ops : List Op) :
    (applyOps ops).neurons.map Neuron.id
      = List.range (applyOps ops).neurons.length
    ∧ neuronIdTrace Network.new ops
      = List.range (applyOps ops).neurons.length
    ∧ connIdTrace Network.new ops
      = List.range (applyOps ops).connections.length := by
  refine ⟨applyOpsOn_neurons_map_id Network.new ops rfl, ?_, ?_⟩
  · rw [neuronIdTrace_eq]
    show List.range' 0 (countNeuronOps ops) = _
    rw [applyOps, applyOpsOn_neurons_length]
    simp [Network.new, List.range_eq_range']
  · rw [connIdTrace_eq]
    show List.range' 0 (countConnOps ops) = _
    rw [applyOps, applyOpsOn_connections_length]
    simp [Network.new, List.range_eq_range']

/-- C7: weight fallback — `"abc"` and `""` fail to parse, `"-0.5"` parses
to exactly -0.5, and for every sequence of well-formed rows the load
succeeds with each edge's weight equal to the parsed weight field, or the
default 1 when parsing fails. -/
theorem c7_weight_fallback :
    parseWeight "abc" = none
    ∧ parseWeight "" = none
    ∧ parseWeight "-0.5" = some (-0.5 : ℚ)
    ∧ ∀ rows : List Row, ∃ net,
        load (rows.map Except.ok) = Except.ok net
        ∧ net.connections.map Connection.weight
          = rows.map (fun r => (parseWeight r.nbr).getD 1) := by
  refine ⟨rfl, rfl, ?_, ?_⟩
  · have hval : (mkRat (-5) 10 : ℚ) = -0.5 := by
      rw [Rat.mkRat_eq_divInt, Rat.divInt_eq_div]
      norm_num
    calc parseWeight "-0.5" = some (mkRat (-5) 10) := rfl
    _ = some (-0.5 : ℚ) := by rw [hval]
  · intro rows
    obtain ⟨s', hok, hw⟩ := loadAux_ok initState rows
    refine ⟨s'.network, ?_, ?_⟩
    · simp [load, hok, Except.map]
    · simpa [initState, Network.new] using hw

/-- C8: row-source failure propagation — when the row source errors at any
position, the load returns exactly that error, whatever rows follow the
failing one; no successful result is reported. -/
theorem c8_row_error_aborts (good : List Row) (e : String)
    (rest : List (Except String Row)) :
    load (good.map Except.ok ++ Except.error e :: rest) = Except.error e := by
  have h : ∀ s : LoaderState,
      loadAux s (good.map Except.ok ++ Except.error e :: rest)
        = Except.error e := by
    induction good with
    | nil => intro s; rfl
    | cons r rs ih =>
        intro s
        simp only [List.map_cons, List.cons_append, loadAux]
        exact ih (processRow s r)
  simp [load, h initState, Except.map]

/-- C9: a row whose two endpoint names are the same unseen string creates
exactly one new vertex (the vertex count grows by one) and inserts a
self-loop whose source and target are both that vertex's id. -/
theorem c9_self_loop (s : LoaderState) (n syn_code w : String)
    (h : findName s.neuron_map n = none) :
    (processRow s
        { neuron1 := n, neuron2 := n, syn := syn_code, nbr := w
        }).network.neurons.length
      = s.network.neurons.length + 1
    ∧ (processRow s
        { neuron1 := n, neuron2 := n, syn := syn_code, nbr := w
        }).network.connections
      = s.network.connections
        ++ [Connection.new s.network.neurons.length s.network.neurons.length
              (classify syn_code) ((parseWeight w).getD 1)] := by
  have h2 : findName ((n, s.network.neurons.length) :: s.neuron_map) n
      = some s.network.neurons.length := by
    simp [findName]
  constructor
  · simp [processRow, resolve, h, h2, Network.add_connection,
      Network.add_neuron]
  · simp [processRow, resolve, h, h2, Network.add_connection,
      Network.add_neuron, Connection.new]

/-- Witness for C9 at a concrete input: the row ("A","A","EJ","x") on the
empty state yields one vertex and the self-loop 0→0. -/
theorem c9_witness :
    (processRow initState
        { neuron1 := "A", neuron2 := "A", syn := "EJ", nbr := "x"
        }).network.neurons.length = 1
    ∧ (processRow initState
        { neuron1 := "A", neuron2 := "A", syn := "EJ", nbr := "x"
        }).network.connections
      = [Connection.new 0 0 SynapseType.GapJunction 1] :=
  c9_self_loop initState "A" "EJ" "x" rfl

/-- C10: the outgoing index has an entry for `v` exactly when some inserted
edge has source `v`; consequently every bucket present in the index is
non-empty (a vertex without outgoing edges has no entry rather than an
empty bucket). -/
theorem c10_index_entry_iff (ops : List Op) :
    (∀ v, mapFind (applyOps ops).outgoing_map v ≠ none
        ↔ ∃ c ∈ (applyOps ops).connections, c.from_id = v)
    ∧ ∀ p ∈ (applyOps ops).outgoing_map, p.2 ≠ [] := by
  obtain ⟨h₁, h₂⟩ := outIndexOk_applyOps ops
  constructor
  · intro v
    rw [h₁ v]
    constructor
    · intro hne
      by_cases he : outgoingOf (applyOps ops) v = []
      · rw [if_pos he] at hne
        exact absurd rfl hne
      · have hno := mt (sourceEdgeIdsFrom_eq_nil v 0
          (applyOps ops).connections).mpr he
        push_neg at hno
        exact hno
    · rintro ⟨c, hc, hv⟩
      have hne : outgoingOf (applyOps ops) v ≠ [] := by
        intro he
        exact (sourceEdgeIdsFrom_eq_nil v 0 _).mp he c hc hv
      rw [if_neg hne]
      simp
  · rintro ⟨pk, pl⟩ hp
    have hfind : mapFind (applyOps ops).outgoing_map pk = some pl :=
      mapFind_of_mem _ pk pl h₂ hp
    rw [h₁ pk] at hfind
    by_cases he : outgoingOf (applyOps ops) pk = []
    · rw [if_pos he] at hfind
      cases hfind
    · rw [if_neg he] at hfind
      injection hfind with hh
      subst hh
      exact he

end Flymind
